import Mathlib

/-!
Verification of the `engine` binary/NBT serialization library.

Byte streams are modelled as `List Nat`, each element standing for one `u8`
(normalised with `% 256` at every read point, embedding the fact that the
underlying allocation holds bytes).  Serializers return the list of bytes
they append to the buffer, under the assumption that the buffer has enough
spare capacity; deserializers consume a prefix of the stream.

Rust behaviours are embedded as follows: a `None` return of the source is
`DRes.fail`; a `panic!`, a failed `assert!`, a failed `unwrap()` or a debug
arithmetic-overflow abort is `DRes.panicked` (for buffer operations that
return no stream, plain `Option` with `none` standing for the abort); the
`DRes.oot` constructor is produced only when the fuel of the fuelled NBT
decoder runs out and corresponds to no behaviour of the source.
-/

/-- Outcome of a deserializer: a decoded value plus the remaining stream,
a recoverable failure (`None` in the source), or a process abort. -/
inductive DRes (α : Type) where
  | ok : α → List Nat → DRes α
  | fail : DRes α
  | panicked : DRes α
  | oot : DRes α
deriving DecidableEq, Repr

/-- Little-endian bytes of the low `n * 8` bits of `v` (`to_le_bytes`). -/
def leBytes : Nat → Nat → List Nat
  | 0, _ => []
  | n + 1, v => v % 256 :: leBytes n (v / 256)

/-- Value of a little-endian byte list (`from_le_bytes`, unsigned reading). -/
def leVal : List Nat → Nat
  | [] => 0
  | b :: bs => b % 256 + 256 * leVal bs

/-- Two's-complement encoding of an `Int` into `w` bits (Rust `as uN`). -/
def toU (w : Nat) (v : Int) : Nat := (v % ((2 : Int) ^ w)).toNat

/-- Reads a `w`-bit pattern back as a signed integer (`as iN` / `from_le_bytes`
into a signed type). -/
def toSigned (w : Nat) (n : Nat) : Int :=
  if n < 2 ^ (w - 1) then (n : Int) else (n : Int) - (2 : Int) ^ w

/-- `Buffer::read` into a freshly zero-initialised `n`-byte array: the first
`min n remaining` bytes are copied, the tail of the array stays zero.  Returns
the array contents and the remaining stream. -/
def readFixedBytes (n : Nat) (s : List Nat) : List Nat × List Nat :=
  ((s.take n).map (· % 256) ++ List.replicate (n - min n s.length) 0, s.drop n)

/-- `U8::deserialize`: one byte, `None` when the stream is exhausted. -/
def u8Deserialize (s : List Nat) : DRes Nat :=
  match s with
  | [] => .fail
  | b :: rest => .ok (b % 256) rest

/-- `Bool::deserialize`: `0x01` is `true`, `0x00` is `false`, and any other
byte runs `panic!("Unable to deBinary the value of bool ...")`. -/
def boolDeserialize (s : List Nat) : DRes Bool :=
  match u8Deserialize s with
  | .ok b rest =>
    if b = 1 then .ok true rest
    else if b = 0 then .ok false rest
    else .panicked
  | .fail => .fail
  | .panicked => .panicked
  | .oot => .oot

/-- Body of the `while u >= 0x80` loop shared by `VarU32::serialize` and
`VarU64::serialize`; the fuel replaces the `while` loop and is never
exhausted for values below `2 ^ 64`. -/
def varUSerializeAux : Nat → Nat → List Nat
  | 0, u => [u % 128]
  | fuel + 1, u =>
    if u < 128 then [u]
    else (u % 128 + 128) :: varUSerializeAux fuel (u / 128)

/-- `VarU32::serialize` / `VarU64::serialize`: 7-bit groups, low first, each
non-final group carrying the continuation bit `0x80`. -/
def varUSerialize (u : Nat) : List Nat := varUSerializeAux 11 u

/-- The `for i in (0..7*groups).step_by(7)` decode loop of the unsigned
VarInt decoders: `width` is the bit width of the accumulator type, and the
first argument counts the byte groups still allowed.  Exhausting the groups
reaches the `panic!("VarUxx overflow")` after the loop. -/
def varUDeserializeLoop (width : Nat) : Nat → Nat → Nat → List Nat → DRes Nat
  | 0, _, _, _ => .panicked
  | groups + 1, i, v, s =>
    match u8Deserialize s with
    | .ok b rest =>
      let v2 := v ||| ((b % 128) <<< i) % 2 ^ width
      if b < 128 then .ok v2 rest
      else varUDeserializeLoop width groups (i + 7) v2 rest
    | .fail => .fail
    | .panicked => .panicked
    | .oot => .oot

/-- `VarU32::deserialize`: at most 5 groups, then a panic. -/
def varU32Deserialize (s : List Nat) : DRes Nat :=
  varUDeserializeLoop 32 5 0 0 s

/-- `VarU64::deserialize`: at most 10 groups, then a panic. -/
def varU64Deserialize (s : List Nat) : DRes Nat :=
  varUDeserializeLoop 64 10 0 0 s

/-- Zigzag prologue of `VarI32::serialize`:
`let mut ux = (u as u32) << 1; if u < 0 { ux = !ux; }`. -/
def zigzagVarI32 (v : Int) : Nat :=
  let ux := (2 * toU 32 v) % 2 ^ 32
  if v < 0 then 2 ^ 32 - 1 - ux else ux

/-- Zigzag prologue of `VarI64::serialize`, exactly as written in the source:
the operand is cast to `u32`, so the value is truncated to its low 32 bits
before the zigzag transform (`let mut ux = (u as u32) << 1;`). -/
def zigzagVarI64 (v : Int) : Nat :=
  let ux := (2 * toU 32 v) % 2 ^ 32
  if v < 0 then 2 ^ 32 - 1 - ux else ux

/-- `VarI32::serialize`. -/
def varI32Serialize (v : Int) : List Nat := varUSerialize (zigzagVarI32 v)

/-- `VarI64::serialize`. -/
def varI64Serialize (v : Int) : List Nat := varUSerialize (zigzagVarI64 v)

/-- Zigzag epilogue of `VarI32::deserialize`:
`let mut x = (ux >> 1) as i32; if ux & 1 != 0 { x = !x; }`. -/
def unzigzag32 (ux : Nat) : Int :=
  if ux % 2 = 1 then -(ux / 2 : Nat) - 1 else (ux / 2 : Nat)

/-- Zigzag epilogue of `VarI64::deserialize` (the accumulator is a full
`u64`, unlike the serializer). -/
def unzigzag64 (ux : Nat) : Int :=
  if ux % 2 = 1 then -(ux / 2 : Nat) - 1 else (ux / 2 : Nat)

/-- `VarI32::deserialize`. -/
def varI32Deserialize (s : List Nat) : DRes Int :=
  match varUDeserializeLoop 32 5 0 0 s with
  | .ok ux rest => .ok (unzigzag32 ux) rest
  | .fail => .fail
  | .panicked => .panicked
  | .oot => .oot

/-- `VarI64::deserialize`. -/
def varI64Deserialize (s : List Nat) : DRes Int :=
  match varUDeserializeLoop 64 10 0 0 s with
  | .ok ux rest => .ok (unzigzag64 ux) rest
  | .fail => .fail
  | .panicked => .panicked
  | .oot => .oot

/-- UTF-8 validity of a byte list, as checked by `String::from_utf8`. -/
def validUtf8 : List Nat → Bool
  | [] => true
  | b :: rest =>
    if b < 0x80 then validUtf8 rest
    else if 0xC2 ≤ b ∧ b ≤ 0xDF then
      match rest with
      | c1 :: rest2 => 0x80 ≤ c1 && c1 ≤ 0xBF && validUtf8 rest2
      | _ => false
    else if b = 0xE0 then
      match rest with
      | c1 :: c2 :: rest2 =>
        0xA0 ≤ c1 && c1 ≤ 0xBF && (0x80 ≤ c2 && c2 ≤ 0xBF) && validUtf8 rest2
      | _ => false
    else if (0xE1 ≤ b ∧ b ≤ 0xEC) ∨ b = 0xEE ∨ b = 0xEF then
      match rest with
      | c1 :: c2 :: rest2 =>
        0x80 ≤ c1 && c1 ≤ 0xBF && (0x80 ≤ c2 && c2 ≤ 0xBF) && validUtf8 rest2
      | _ => false
    else if b = 0xED then
      match rest with
      | c1 :: c2 :: rest2 =>
        0x80 ≤ c1 && c1 ≤ 0x9F && (0x80 ≤ c2 && c2 ≤ 0xBF) && validUtf8 rest2
      | _ => false
    else if b = 0xF0 then
      match rest with
      | c1 :: c2 :: c3 :: rest2 =>
        0x90 ≤ c1 && c1 ≤ 0xBF && (0x80 ≤ c2 && c2 ≤ 0xBF) &&
          (0x80 ≤ c3 && c3 ≤ 0xBF) && validUtf8 rest2
      | _ => false
    else if 0xF1 ≤ b ∧ b ≤ 0xF3 then
      match rest with
      | c1 :: c2 :: c3 :: rest2 =>
        0x80 ≤ c1 && c1 ≤ 0xBF && (0x80 ≤ c2 && c2 ≤ 0xBF) &&
          (0x80 ≤ c3 && c3 ≤ 0xBF) && validUtf8 rest2
      | _ => false
    else if b = 0xF4 then
      match rest with
      | c1 :: c2 :: c3 :: rest2 =>
        0x80 ≤ c1 && c1 ≤ 0x8F && (0x80 ≤ c2 && c2 ≤ 0xBF) &&
          (0x80 ≤ c3 && c3 ≤ 0xBF) && validUtf8 rest2
      | _ => false
    else false

/-- `CString::<P>::deserialize`, parameterised by the length-prefix decoder:
reads the length, fills a zero-initialised vector of that size with however
many bytes remain (the short-read count is discarded by the source), then
`String::from_utf8(vec).unwrap()` — a panic on invalid UTF-8. -/
def cstringDeserialize (decodeLen : List Nat → DRes Nat) (s : List Nat) :
    DRes (List Nat) :=
  match decodeLen s with
  | .ok len rest =>
    let r := readFixedBytes len rest
    if validUtf8 r.1 then .ok r.1 r.2 else .panicked
  | .fail => .fail
  | .panicked => .panicked
  | .oot => .oot

/-- `CString::<P>::serialize`: the length prefix then the raw bytes. -/
def cstringSerialize (encodeLen : Nat → List Nat) (s : List Nat) : List Nat :=
  encodeLen s.length ++ s

/-- `LE::read_u16` via `U16::<LE>::deserialize`: two little-endian bytes,
`None` when fewer than two remain. -/
def u16leDeserialize (s : List Nat) : DRes Nat :=
  if s.length < 2 then .fail
  else .ok (leVal (s.take 2)) (s.drop 2)

/-!
The `Buffer` of `bytes.rs` / `buffer.rs`: a capacity-bounded allocation with a
written length and a read cursor.  Only the cursor arithmetic matters for the
claims, so the byte contents are not carried.  `usize` subtractions that can
overflow in the source are modelled as checked: `none` stands for the
debug-mode abort (failed `assert!` or subtraction overflow).
-/
structure Buffer where
  cap : Nat
  len : Nat
  off : Nat
  owner : Bool
deriving DecidableEq, Repr

/-- `Buffer::new(cap)`: `len = 0`, `offset = 0`, owning. -/
def Buffer.new (cap : Nat) : Buffer := ⟨cap, 0, 0, true⟩

/-- `Buffer::zeroed(cap)`: the whole capacity counts as written. -/
def Buffer.zeroed (cap : Nat) : Buffer := ⟨cap, cap, 0, true⟩

/-- `Buffer::advance(n)`: `None` when fewer than `n` bytes remain unread. -/
def Buffer.advance (b : Buffer) (n : Nat) : Option Buffer :=
  if b.len - b.off < n then none
  else some { b with off := b.off + n }

/-- `Buffer::get(n, advance)`: a view of the next `n` bytes.  The slice index
`&self[start..end]` aborts when `end` exceeds the written length, modelled as
`none`. -/
def Buffer.get (b : Buffer) (n : Nat) (adv : Bool) : Option Buffer :=
  if b.off + n ≤ b.len then
    some (if adv then { b with off := b.off + n } else b)
  else none

/-- `Buffer::read(dst)`: copies `min (dst.len) remaining` bytes and advances
the cursor; returns the count and the new state. -/
def Buffer.read (b : Buffer) (n : Nat) : Nat × Buffer :=
  let size := min n (b.len - b.off)
  (size, { b with off := b.off + size })

/-- `Buffer::write(src)`: copies `min (src.len) (cap - len)` bytes to the
tail; returns the count and the new state. -/
def Buffer.write (b : Buffer) (n : Nat) : Nat × Buffer :=
  let size := min n (b.cap - b.len)
  (size, { b with len := b.len + size })

/-- `Buffer::split_at(index)` from `bytes.rs`.  The source asserts
`index <= self.cap - 1` (`cap - 1` overflows when `cap = 0`), then tests
`(self.len - 1) >= index` (`len - 1` overflows when `len = 0`); each
overflow or failed assertion aborts, modelled as `none`. -/
def Buffer.split_at (b : Buffer) (index : Nat) : Option (Buffer × Buffer) :=
  if b.cap = 0 then none
  else if ¬ index ≤ b.cap - 1 then none
  else if b.len = 0 then none
  else if b.len - 1 ≥ index then
    some (⟨index, index, 0, b.owner⟩, ⟨b.cap - index, b.len - index, 0, false⟩)
  else
    some (⟨index, b.len, 0, b.owner⟩, ⟨b.cap - index, 0, 0, false⟩)

/-- The structural invariant of §3: `0 ≤ offset ≤ length ≤ capacity`. -/
def Buffer.inv (b : Buffer) : Prop := b.off ≤ b.len ∧ b.len ≤ b.cap

instance (b : Buffer) : Decidable b.inv := by unfold Buffer.inv; infer_instance

/-!
The NBT tree model.  The `NBT`, `Tag`, `Compound` and `List` types live in
the `engine_api` crate, which is not part of the sources; they are modelled
from the spec (§3, §6).  Strings are carried as their UTF-8 byte lists,
`f32`/`f64` payloads as their raw bit patterns (the codec only ever moves
their `to_le_bytes`/`from_le_bytes` images).
-/

/-- Modelled from the spec: the 12-variant tag enumeration plus the `End`
marker, with the byte values of §6. -/
inductive Tag where
  | End | Byte | Short | Int | Long | Float | Double
  | ByteArray | String | List | Compound | IntArray | LongArray
deriving DecidableEq, Repr

/-- Modelled from the spec: `tag as u8`, §6 byte values `0 = End` … `12 = LongArray`. -/
def Tag.toByte : Tag → Nat
  | .End => 0
  | .Byte => 1
  | .Short => 2
  | .Int => 3
  | .Long => 4
  | .Float => 5
  | .Double => 6
  | .ByteArray => 7
  | .String => 8
  | .List => 9
  | .Compound => 10
  | .IntArray => 11
  | .LongArray => 12

/-- Modelled from the spec: `Tag::from_byte`, `None` on an unrecognized byte
(an unknown tag is invalid input, §7 `InvalidTag`). -/
def Tag.fromByte : Nat → Option Tag
  | 0 => some .End
  | 1 => some .Byte
  | 2 => some .Short
  | 3 => some .Int
  | 4 => some .Long
  | 5 => some .Float
  | 6 => some .Double
  | 7 => some .ByteArray
  | 8 => some .String
  | 9 => some .List
  | 10 => some .Compound
  | 11 => some .IntArray
  | 12 => some .LongArray
  | _ => none

/-- Modelled from the spec: the dynamically-typed tagged tree of §3.
`Compound` is an ordered name→node list (insertion order preserved). -/
inductive NBT where
  | Byte : Int → NBT
  | Short : Int → NBT
  | Int : Int → NBT
  | Long : Int → NBT
  | Float : Nat → NBT
  | Double : Nat → NBT
  | ByteArray : List Int → NBT
  | String : List Nat → NBT
  | List : Tag → List NBT → NBT
  | Compound : List (List Nat × NBT) → NBT
  | IntArray : List Int → NBT
  | LongArray : List Int → NBT

/-- Modelled from the spec: `NBT::tag`, the tag of each variant. -/
def NBT.tag : NBT → Tag
  | .Byte _ => .Byte
  | .Short _ => .Short
  | .Int _ => .Int
  | .Long _ => .Long
  | .Float _ => .Float
  | .Double _ => .Double
  | .ByteArray _ => .ByteArray
  | .String _ => .String
  | .List _ _ => .List
  | .Compound _ => .Compound
  | .IntArray _ => .IntArray
  | .LongArray _ => .LongArray

/-- Modelled from the spec: `Compound::put` — a duplicate name overwrites the
earlier entry and keeps its original position, a new name is appended. -/
def compoundPut (m : List (List Nat × NBT)) (k : List Nat) (v : NBT) :
    List (List Nat × NBT) :=
  if m.any (fun p => p.1 = k) then
    m.map (fun p => if p.1 = k then (k, v) else p)
  else m ++ [(k, v)]

/-- The `Encoding` trait of `encoding.rs`: the per-profile codecs for `i32`,
`i64` and strings. -/
structure Encoding where
  readInt : List Nat → DRes Int
  writeInt : Int → List Nat
  readLong : List Nat → DRes Int
  writeLong : Int → List Nat
  readString : List Nat → DRes (List Nat)
  writeString : List Nat → List Nat

/-- The network profile: zigzag VarInts for `Int`/`Long`, `VarU32`-prefixed
strings (`val.len() as u32`). -/
def NetworkLittleEndian : Encoding where
  readInt := varI32Deserialize
  writeInt := varI32Serialize
  readLong := varI64Deserialize
  writeLong := varI64Serialize
  readString := cstringDeserialize varU32Deserialize
  writeString := fun s => varUSerialize (s.length % 2 ^ 32) ++ s

/-- The storage profile: fixed-width little-endian `Int`/`Long`,
strings prefixed by a 16-bit little-endian length (`val.len() as u16`). -/
def LittleEndian : Encoding where
  readInt := fun s =>
    if s.length < 4 then .fail
    else .ok (toSigned 32 (leVal (s.take 4))) (s.drop 4)
  writeInt := fun v => leBytes 4 (toU 32 v)
  readLong := fun s =>
    if s.length < 8 then .fail
    else .ok (toSigned 64 (leVal (s.take 8))) (s.drop 8)
  writeLong := fun v => leBytes 8 (toU 64 v)
  readString := cstringDeserialize u16leDeserialize
  writeString := fun s => leBytes 2 (s.length % 2 ^ 16) ++ s

/-- `v.len() as i32`: the length truncated to 32 bits and read as signed. -/
def lenAsI32 (n : Nat) : Int := toSigned 32 (n % 2 ^ 32)

mutual
/-- The `encode` function of `nbt/src/binary.rs`: `Byte`/`Short`/`Float`/
`Double` as fixed little-endian bytes regardless of the strategy, `Int`/
`Long`/lengths/strings through the `Encoding`. -/
def nbtEncode (E : Encoding) : NBT → List Nat
  | NBT.Byte v => leBytes 1 (toU 8 v)
  | NBT.Short v => leBytes 2 (toU 16 v)
  | NBT.Int v => E.writeInt v
  | NBT.Long v => E.writeLong v
  | NBT.Float p => leBytes 4 p
  | NBT.Double p => leBytes 8 p
  | NBT.ByteArray xs => E.writeInt (lenAsI32 xs.length) ++ xs.map (toU 8)
  | NBT.String s => E.writeString s
  | NBT.List tg xs =>
    Tag.toByte tg :: (E.writeInt (lenAsI32 xs.length) ++ nbtEncodeItems E xs)
  | NBT.Compound es => nbtEncodeEntries E es ++ [Tag.toByte Tag.End]
  | NBT.IntArray xs =>
    E.writeInt (lenAsI32 xs.length) ++ (xs.map E.writeInt).flatten
  | NBT.LongArray xs =>
    E.writeInt (lenAsI32 xs.length) ++ (xs.map E.writeLong).flatten

/-- The `for item in v.iter()` loop of the `List` arm of `encode`. -/
def nbtEncodeItems (E : Encoding) : List NBT → List Nat
  | [] => []
  | x :: xs => nbtEncode E x ++ nbtEncodeItems E xs

/-- The `for (name, item) in v.iter()` loop of the `Compound` arm of
`encode`: tag byte, name, value for each entry in insertion order. -/
def nbtEncodeEntries (E : Encoding) : List (List Nat × NBT) → List Nat
  | [] => []
  | (k, v) :: es =>
    Tag.toByte (NBT.tag v) :: (E.writeString k ++ nbtEncode E v)
      ++ nbtEncodeEntries E es
end

/-- The `for _ in 0..len` element loop of the `List` arm of `decode`,
abstracted over the one-node decoder. -/
def decodeListItems (dec : Tag → List Nat → DRes NBT) (tg : Tag) :
    Nat → List Nat → DRes (List NBT)
  | 0, s => .ok [] s
  | n + 1, s =>
    match dec tg s with
    | .ok x s2 =>
      match decodeListItems dec tg n s2 with
      | .ok xs s3 => .ok (x :: xs) s3
      | .fail => .fail
      | .panicked => .panicked
      | .oot => .oot
    | .fail => .fail
    | .panicked => .panicked
    | .oot => .oot

/-- The `for _ in 0..len` loops of the `IntArray`/`LongArray` arms of
`decode`, abstracted over the element reader. -/
def decodeNumItems (rd : List Nat → DRes Int) :
    Nat → List Nat → DRes (List Int)
  | 0, s => .ok [] s
  | n + 1, s =>
    match rd s with
    | .ok x s2 =>
      match decodeNumItems rd n s2 with
      | .ok xs s3 => .ok (x :: xs) s3
      | .fail => .fail
      | .panicked => .panicked
      | .oot => .oot
    | .fail => .fail
    | .panicked => .panicked
    | .oot => .oot

/-- The `loop` of the `Compound` arm of `decode`: (tag, name, value) triples
accumulated with `Compound::put` until a bare `End` tag.  The fuel replaces
the unbounded `loop`; each iteration of the source consumes at least the tag
byte, so fuel `length + 1` is never exhausted. -/
def decodeCompoundEntries (dec : Tag → List Nat → DRes NBT)
    (rdStr : List Nat → DRes (List Nat)) :
    Nat → List (List Nat × NBT) → List Nat → DRes (List (List Nat × NBT))
  | 0, _, _ => .oot
  | f + 1, acc, s =>
    match u8Deserialize s with
    | .ok b s2 =>
      match Tag.fromByte b with
      | none => .fail
      | some Tag.End => .ok acc s2
      | some tg =>
        match rdStr s2 with
        | .ok name s3 =>
          match dec tg s3 with
          | .ok v s4 =>
            decodeCompoundEntries dec rdStr f (compoundPut acc name v) s4
          | .fail => .fail
          | .panicked => .panicked
          | .oot => .oot
        | .fail => .fail
        | .panicked => .panicked
        | .oot => .oot
    | .fail => .fail
    | .panicked => .panicked
    | .oot => .oot

/-- The `decode` function of `nbt/src/binary.rs`, with a fuel argument
standing for the call stack (decremented at each recursive call, never
exhausted when started from `length + 1`).  `Byte`/`Short`/`Float`/`Double`
ignore the count returned by `Buffer::read`, so a short read yields a value
completed with the zero initialisation of the local array. -/
def nbtDecodeF (E : Encoding) : Nat → Tag → List Nat → DRes NBT
  | 0, _, _ => .oot
  | fuel + 1, id, s =>
    match id with
    | Tag.End => .fail
    | Tag.Byte =>
      let r := readFixedBytes 1 s
      .ok (NBT.Byte (toSigned 8 (leVal r.1))) r.2
    | Tag.Short =>
      let r := readFixedBytes 2 s
      .ok (NBT.Short (toSigned 16 (leVal r.1))) r.2
    | Tag.Int =>
      match E.readInt s with
      | .ok v s2 => .ok (NBT.Int v) s2
      | .fail => .fail
      | .panicked => .panicked
      | .oot => .oot
    | Tag.Long =>
      match E.readLong s with
      | .ok v s2 => .ok (NBT.Long v) s2
      | .fail => .fail
      | .panicked => .panicked
      | .oot => .oot
    | Tag.Float =>
      let r := readFixedBytes 4 s
      .ok (NBT.Float (leVal r.1)) r.2
    | Tag.Double =>
      let r := readFixedBytes 8 s
      .ok (NBT.Double (leVal r.1)) r.2
    | Tag.ByteArray =>
      match E.readInt s with
      | .ok len s2 =>
        let r := readFixedBytes (toU 64 len) s2
        .ok (NBT.ByteArray (r.1.map (toSigned 8))) r.2
      | .fail => .fail
      | .panicked => .panicked
      | .oot => .oot
    | Tag.String =>
      match E.readString s with
      | .ok str s2 => .ok (NBT.String str) s2
      | .fail => .fail
      | .panicked => .panicked
      | .oot => .oot
    | Tag.List =>
      match u8Deserialize s with
      | .ok b s2 =>
        match Tag.fromByte b with
        | none => .fail
        | some tg =>
          match E.readInt s2 with
          | .ok len s3 =>
            let len := if tg = Tag.End then 0 else len
            match decodeListItems (nbtDecodeF E fuel) tg len.toNat s3 with
            | .ok xs s4 => .ok (NBT.List tg xs) s4
            | .fail => .fail
            | .panicked => .panicked
            | .oot => .oot
          | .fail => .fail
          | .panicked => .panicked
          | .oot => .oot
      | .fail => .fail
      | .panicked => .panicked
      | .oot => .oot
    | Tag.Compound =>
      match decodeCompoundEntries (nbtDecodeF E fuel) E.readString fuel [] s with
      | .ok es s2 => .ok (NBT.Compound es) s2
      | .fail => .fail
      | .panicked => .panicked
      | .oot => .oot
    | Tag.IntArray =>
      match E.readInt s with
      | .ok len s2 =>
        match decodeNumItems E.readInt len.toNat s2 with
        | .ok xs s3 => .ok (NBT.IntArray xs) s3
        | .fail => .fail
        | .panicked => .panicked
        | .oot => .oot
      | .fail => .fail
      | .panicked => .panicked
      | .oot => .oot
    | Tag.LongArray =>
      match E.readInt s with
      | .ok len s2 =>
        match decodeNumItems E.readLong len.toNat s2 with
        | .ok xs s3 => .ok (NBT.LongArray xs) s3
        | .fail => .fail
        | .panicked => .panicked
        | .oot => .oot
      | .fail => .fail
      | .panicked => .panicked
      | .oot => .oot

/-- `decode` with the fuel instantiated adequately for the stream. -/
def nbtDecode (E : Encoding) (id : Tag) (s : List Nat) : DRes NBT :=
  nbtDecodeF E (s.length + 1) id s

/-- `RootNBT::<E>::serialize`: tag byte, empty root name, payload. -/
def rootSerialize (E : Encoding) (v : NBT) : List Nat :=
  Tag.toByte (NBT.tag v) :: (E.writeString [] ++ nbtEncode E v)

/-- `RootNBT::<E>::deserialize`: tag byte, root name (discarded), payload. -/
def rootDeserialize (E : Encoding) (s : List Nat) : DRes NBT :=
  match u8Deserialize s with
  | .ok b s2 =>
    match Tag.fromByte b with
    | none => .fail
    | some tag =>
      match E.readString s2 with
      | .ok _ s3 => nbtDecodeF E (s3.length + 1) tag s3
      | .fail => .fail
      | .panicked => .panicked
      | .oot => .oot
  | .fail => .fail
  | .panicked => .panicked
  | .oot => .oot

/-- C2: the signed 64-bit VarInt codec does not round-trip `i64` boundary
values: `VarI64::serialize` casts the operand to `u32` before the zigzag
transform, so `i64::MIN` comes back as `i32::MIN` and `i64::MAX` as
`i32::MAX`, while the unsigned 64-bit codec does round-trip `u64::MAX`. -/
theorem varI64_serialize_truncates_to_32_bits :
    varI64Deserialize (varI64Serialize (-(2 ^ 63))) = .ok (-(2 ^ 31)) [] ∧
    varI64Deserialize (varI64Serialize (2 ^ 63 - 1)) = .ok (2 ^ 31 - 1) [] ∧
    varI64Deserialize (varI64Serialize (2 ^ 32)) = .ok 0 [] ∧
    varU64Deserialize (varUSerialize (2 ^ 64 - 1)) = .ok (2 ^ 64 - 1) [] := by
  refine ⟨?_, ?_, ?_, ?_⟩ <;> rfl

/-- C3: malformed input aborts the process instead of producing a
recoverable failure — a boolean byte other than `0x00`/`0x01` hits
`panic!` in `Bool::deserialize`, an over-long continuation sequence hits
`panic!("VarI32 overflow")`, and non-UTF-8 string bytes hit the `unwrap()`
in `CString::deserialize`. -/
theorem malformed_input_aborts :
    boolDeserialize [2] = .panicked ∧
    varI32Deserialize [255, 255, 255, 255, 255] = .panicked ∧
    NetworkLittleEndian.readString [1, 255] = .panicked := by
  refine ⟨rfl, rfl, rfl⟩

/-- C4: the VarInt decode loops are bounded at 5 (32-bit) and 10 (64-bit)
byte-groups and a group without the continuation bit terminates decoding at
once with the accumulated value, but exhausting the bound runs
`panic!("VarUxx overflow")` — an abort, not a recoverable `VarIntOverflow`
error (the trailing terminator byte after the bound is never reached). -/
theorem varint_group_bound_overflow_aborts :
    varU32Deserialize [128, 128, 128, 128, 128, 0] = .panicked ∧
    varU64Deserialize
      [128, 128, 128, 128, 128, 128, 128, 128, 128, 128, 0] = .panicked ∧
    varU32Deserialize [128, 5, 99] = .ok 640 [99] ∧
    varU64Deserialize [7, 1, 2] = .ok 7 [1, 2] := by
  refine ⟨rfl, rfl, rfl, rfl⟩

/-- C5: the tree decoder's fixed-width scalar arms discard the count
returned by `Buffer::read`, so a truncated region decodes to a value
assembled from the zero-initialised local array (partial bytes are kept and
the tail is zero-filled) instead of an absent result. -/
theorem truncated_scalar_decode_zero_fills :
    nbtDecode NetworkLittleEndian Tag.Short [] = .ok (NBT.Short 0) [] ∧
    nbtDecode NetworkLittleEndian Tag.Byte [] = .ok (NBT.Byte 0) [] ∧
    nbtDecode NetworkLittleEndian Tag.Float [1, 2] = .ok (NBT.Float 513) [] ∧
    nbtDecode NetworkLittleEndian Tag.Double [65] = .ok (NBT.Double 65) [] := by
  refine ⟨rfl, rfl, rfl, rfl⟩

/-- C6: `split_at` on a region whose length is 0 evaluates `self.len - 1`,
a `usize` subtraction overflow, and aborts (it also aborts, via `assert!`,
rather than returning a recoverable `BoundsError`, when the index reaches
the capacity); on a region with `length > index` it does transfer the tail
length to the non-owning right half. -/
theorem split_at_aborts_on_zero_length :
    Buffer.split_at ⟨8, 0, 0, true⟩ 3 = none ∧
    Buffer.split_at ⟨8, 5, 2, true⟩ 8 = none ∧
    Buffer.split_at ⟨8, 5, 2, true⟩ 3 =
      some (⟨3, 3, 0, true⟩, ⟨5, 2, 0, false⟩) := by
  refine ⟨rfl, rfl, rfl⟩

/-- C9 counterexample: a List header with element tag `End` (byte 0) and the
nonzero declared count 5 (network `Int` encoding `[10]`) does not fail —
the count is discarded and decode succeeds with an empty `End`-tagged list. -/
theorem list_end_tag_nonzero_count_succeeds :
    nbtDecode NetworkLittleEndian Tag.List [0, 10] =
      .ok (NBT.List Tag.End []) [] ∧
    nbtDecode NetworkLittleEndian Tag.List [0, 10] ≠ .fail := by
  exact ⟨rfl, fun h => nomatch h⟩

/-- C1: the network-profile root round-trip is broken by the 32-bit
truncation in `VarI64::serialize`: a root holding `Long (2^32)` serializes
to `[4, 0, 0]` and deserializes to `Long 0`, which is not structurally
identical to the input tree. -/
theorem root_round_trip_truncates_long :
    rootDeserialize NetworkLittleEndian
        (rootSerialize NetworkLittleEndian (NBT.Long (2 ^ 32))) =
      .ok (NBT.Long 0) [] ∧
    NBT.Long 0 ≠ NBT.Long (2 ^ 32) := by
  have h : rootSerialize NetworkLittleEndian (NBT.Long (2 ^ 32)) = [4, 0, 0] := by
    simp only [rootSerialize, nbtEncode]
    rfl
  rw [h]
  refine ⟨rfl, ?_⟩
  intro hc
  cases hc

/-- C7: every buffer operation that returns (rather than aborting) keeps the
`0 ≤ offset ≤ length ≤ capacity` invariant on every region it produces or
mutates. -/
theorem buffer_invariant_preserved (s : Buffer) (c n i : Nat) (a : Bool)
    (h : s.inv) :
    (Buffer.new c).inv ∧ (Buffer.zeroed c).inv ∧
    (∀ s2, s.advance n = some s2 → s2.inv) ∧
    (s.read n).2.inv ∧ (s.write n).2.inv ∧
    (∀ s2, s.get n a = some s2 → s2.inv) ∧
    (∀ l r, s.split_at i = some (l, r) → l.inv ∧ r.inv) := by
  obtain ⟨h1, h2⟩ := h
  refine ⟨⟨Nat.le_refl 0, Nat.zero_le c⟩, ⟨Nat.zero_le c, Nat.le_refl c⟩,
    ?_, ?_, ?_, ?_, ?_⟩
  · intro s2 hs2
    unfold Buffer.advance at hs2
    split at hs2
    · exact absurd hs2 (by simp)
    · cases hs2
      next hc => exact ⟨by simp; omega, h2⟩
  · simp only [Buffer.read, Buffer.inv]
    omega
  · simp only [Buffer.write, Buffer.inv]
    omega
  · intro s2 hs2
    unfold Buffer.get at hs2
    split at hs2
    next hcond =>
      cases hs2
      cases a
      · exact ⟨h1, h2⟩
      · exact ⟨hcond, h2⟩
    · exact absurd hs2 (by simp)
  · intro l r hlr
    unfold Buffer.split_at at hlr
    split at hlr
    · exact absurd hlr (by simp)
    · split at hlr
      · exact absurd hlr (by simp)
      · split at hlr
        · exact absurd hlr (by simp)
        · split at hlr
          all_goals
            cases hlr
            refine ⟨⟨?_, ?_⟩, ?_, ?_⟩ <;> · simp only [Buffer.inv]; omega

/-- Witness for `buffer_invariant_preserved` at a concrete state. -/
theorem buffer_invariant_preserved_witness :
    (Buffer.new 3).inv ∧ (Buffer.zeroed 3).inv ∧
    (∀ s2, Buffer.advance ⟨4, 2, 1, true⟩ 1 = some s2 → s2.inv) ∧
    ((Buffer.read ⟨4, 2, 1, true⟩ 1).2.inv) ∧
    ((Buffer.write ⟨4, 2, 1, true⟩ 1).2.inv) ∧
    (∀ s2, Buffer.get ⟨4, 2, 1, true⟩ 1 true = some s2 → s2.inv) ∧
    (∀ l r, Buffer.split_at ⟨4, 2, 1, true⟩ 2 = some (l, r) → l.inv ∧ r.inv) :=
  buffer_invariant_preserved ⟨4, 2, 1, true⟩ 3 1 2 true (by decide)

/-- Modelled from the spec (§4.3, for comparison only): the full-width
zigzag transform `(x << 1) ^ (x >> 63)` over 64 bits, which equals `2 * x`
for `x ≥ 0` and `-2 * x - 1` for `x < 0`. -/
def zigzag64Spec (v : Int) : Nat :=
  if 0 ≤ v then toU 64 (2 * v) else toU 64 (-(2 * v) - 1)

/-- C8: the tree encoder writes `Byte`/`Short`/`Float`/`Double` as
fixed-width little-endian bytes identically under both strategies, and
delegates `Int`/`Long` to the strategy — `Int` as a zigzag VarInt under the
network profile and 4-byte little-endian under storage, `Long` as 8-byte
little-endian under storage; under the network profile, however, `Long` is
a zigzag VarInt of the value truncated to 32 bits, not of the full value
(`nbtEncode NetworkLittleEndian (NBT.Long (2^32))` is the single byte 0
where the spec's full-width zigzag VarInt would give five bytes). -/
theorem scalar_bytes_strategy_independent (v : Int) (p : Nat) :
    (nbtEncode NetworkLittleEndian (NBT.Byte v) = leBytes 1 (toU 8 v) ∧
      nbtEncode LittleEndian (NBT.Byte v) =
        nbtEncode NetworkLittleEndian (NBT.Byte v)) ∧
    (nbtEncode NetworkLittleEndian (NBT.Short v) = leBytes 2 (toU 16 v) ∧
      nbtEncode LittleEndian (NBT.Short v) =
        nbtEncode NetworkLittleEndian (NBT.Short v)) ∧
    (nbtEncode NetworkLittleEndian (NBT.Float p) = leBytes 4 p ∧
      nbtEncode LittleEndian (NBT.Float p) =
        nbtEncode NetworkLittleEndian (NBT.Float p)) ∧
    (nbtEncode NetworkLittleEndian (NBT.Double p) = leBytes 8 p ∧
      nbtEncode LittleEndian (NBT.Double p) =
        nbtEncode NetworkLittleEndian (NBT.Double p)) ∧
    (nbtEncode NetworkLittleEndian (NBT.Int v) =
        varUSerialize (zigzagVarI32 v) ∧
      nbtEncode LittleEndian (NBT.Int v) = leBytes 4 (toU 32 v)) ∧
    (nbtEncode LittleEndian (NBT.Long v) = leBytes 8 (toU 64 v) ∧
      nbtEncode NetworkLittleEndian (NBT.Long v) =
        varUSerialize (zigzagVarI64 v)) ∧
    (nbtEncode NetworkLittleEndian (NBT.Long (2 ^ 32)) = [0] ∧
      varUSerialize (zigzag64Spec (2 ^ 32)) = [128, 128, 128, 128, 32]) := by
  refine ⟨⟨?_, ?_⟩, ⟨?_, ?_⟩, ⟨?_, ?_⟩, ⟨?_, ?_⟩, ⟨?_, ?_⟩, ⟨?_, ?_⟩, ?_, ?_⟩ <;>
    rfl

/-- C9 amended: when tree decode reads a List header whose element tag byte
is `End` (0), the declared element count — whatever value the strategy
decodes — is discarded and decode succeeds with an empty `End`-tagged List;
`End` read as a direct value tag still fails decode. -/
theorem list_end_tag_discards_count (s rest : List Nat) (n : Int)
    (h : NetworkLittleEndian.readInt s = .ok n rest) :
    nbtDecode NetworkLittleEndian Tag.List (0 :: s) =
      .ok (NBT.List Tag.End []) rest ∧
    ∀ s2, nbtDecode NetworkLittleEndian Tag.End s2 = .fail := by
  constructor
  · show nbtDecodeF NetworkLittleEndian (s.length + 1 + 1) Tag.List (0 :: s) = _
    show (match NetworkLittleEndian.readInt s with
      | .ok len s3 =>
        match decodeListItems (nbtDecodeF NetworkLittleEndian (s.length + 1))
            Tag.End (if Tag.End = Tag.End then 0 else len).toNat s3 with
        | .ok xs s4 => DRes.ok (NBT.List Tag.End xs) s4
        | .fail => .fail
        | .panicked => .panicked
        | .oot => .oot
      | .fail => .fail
      | .panicked => .panicked
      | .oot => (.oot : DRes NBT)) = _
    rw [h]
    rfl
  · intro s2
    rfl

/-- Witness for `list_end_tag_discards_count`: element tag byte 0 with the
network-encoded count 5 (`[10]`). -/
theorem list_end_tag_discards_count_witness :
    nbtDecode NetworkLittleEndian Tag.List (0 :: [10]) =
      .ok (NBT.List Tag.End []) [] ∧
    ∀ s2, nbtDecode NetworkLittleEndian Tag.End s2 = .fail :=
  list_end_tag_discards_count [10] [] 5 (by rfl)

/-- C10: the storage-profile string encoder prefixes `len s % 2 ^ 16` (the
`u16` cast) yet writes every payload byte, so on read-back the decoder
consumes only `len s % 2 ^ 16` payload bytes and a string of 65536 bytes or
more never round-trips. -/
theorem storage_string_length_wraps (s : List Nat) (h : 2 ^ 16 ≤ s.length) :
    LittleEndian.writeString s = leBytes 2 (s.length % 2 ^ 16) ++ s ∧
    ∀ r rest,
      LittleEndian.readString (LittleEndian.writeString s) = .ok r rest →
        r.length = s.length % 2 ^ 16 ∧ r ≠ s ∧
          rest = s.drop (s.length % 2 ^ 16) := by
  set m := s.length % 2 ^ 16 with hmdef
  have hm : m < 2 ^ 16 := Nat.mod_lt _ (by norm_num)
  have hms : m ≤ s.length := le_trans (Nat.le_of_lt hm) h
  have hmlt : m < s.length := lt_of_lt_of_le hm h
  refine ⟨rfl, ?_⟩
  intro r rest hr
  have hstep : LittleEndian.readString (LittleEndian.writeString s) =
      (if validUtf8 ((s.take m).map (· % 256)) then
        DRes.ok ((s.take m).map (· % 256)) (s.drop m) else .panicked) := by
    show cstringDeserialize u16leDeserialize (m % 256 :: m / 256 % 256 :: s) = _
    have hpre : u16leDeserialize (m % 256 :: m / 256 % 256 :: s) = .ok m s := by
      unfold u16leDeserialize
      rw [if_neg (by simp only [List.length_cons]; omega)]
      simp only [List.take_succ_cons, List.take_zero, List.drop_succ_cons,
        List.drop_zero, leVal, DRes.ok.injEq, and_true]
      omega
    unfold cstringDeserialize
    rw [hpre]
    have hfix : readFixedBytes m s = ((s.take m).map (· % 256), s.drop m) := by
      unfold readFixedBytes
      rw [min_eq_left hms]
      simp
    show (if validUtf8 (readFixedBytes m s).1 = true then
        DRes.ok (readFixedBytes m s).1 (readFixedBytes m s).2
      else DRes.panicked) = _
    rw [hfix]
  rw [hstep] at hr
  split at hr
  · cases hr
    have hrlen : ((s.take m).map (· % 256)).length = m := by
      simp [List.length_take, min_eq_left hms]
    refine ⟨hrlen, ?_, rfl⟩
    intro heq
    rw [heq] at hrlen
    omega
  · exact absurd hr (by simp)

/-- Witness for `storage_string_length_wraps`: a 65536-byte string. -/
theorem storage_string_length_wraps_witness :
    LittleEndian.writeString (List.replicate 65536 65) =
      leBytes 2 ((List.replicate 65536 65).length % 2 ^ 16) ++
        List.replicate 65536 65 ∧
    ∀ r rest,
      LittleEndian.readString
          (LittleEndian.writeString (List.replicate 65536 65)) = .ok r rest →
        r.length = (List.replicate 65536 65).length % 2 ^ 16 ∧
          r ≠ List.replicate 65536 65 ∧
          rest = (List.replicate 65536 65).drop
            ((List.replicate 65536 65).length % 2 ^ 16) :=
  storage_string_length_wraps (List.replicate 65536 65)
    (by rw [List.length_replicate]; norm_num)
